import Mathlib

/-!
Shallow embedding of the TinyDB table engine (`tinydb/table.py`,
`tinydb/operations.py`, `tinydb/utils.py`).

Python dictionaries are modelled as insertion-ordered association lists
with unique keys; in-place mutation is modelled by explicit state passing.
Python dictionary keys are dynamically typed (a table stores documents
under string-encoded IDs, while lookups may probe with integer IDs), so
table keys are modelled by an explicit sum type `PyKey`.
-/

namespace TinyDB

/-- JSON-style scalar values stored in document fields. -/
inductive Val where
  | vNull : Val
  | vBool : Bool → Val
  | vInt : Int → Val
  | vStr : String → Val
deriving DecidableEq, Repr

/-- Python `+` on stored values: integer addition or string concatenation;
anything else raises `TypeError` (modelled as `none`). -/
def Val.addOp : Val → Val → Option Val
  | .vInt a, .vInt b => some (.vInt (a + b))
  | .vStr a, .vStr b => some (.vStr (a ++ b))
  | _, _ => none

/-- Python `-` on stored values: integer subtraction only. -/
def Val.subOp : Val → Val → Option Val
  | .vInt a, .vInt b => some (.vInt (a - b))
  | _, _ => none

/-- Python unary `-` on stored values: integers only. -/
def Val.negOp : Val → Option Val
  | .vInt a => some (.vInt (-a))
  | _ => none

/-- `d.get(k)` / `d[k]` lookup on an ordered dictionary. -/
def lookupKey {κ α : Type} [DecidableEq κ] (k : κ) : List (κ × α) → Option α
  | [] => none
  | p :: ps => if p.1 = k then some p.2 else lookupKey k ps

/-- `k in d` membership test on an ordered dictionary. -/
def containsKey {κ α : Type} [DecidableEq κ] (k : κ) (l : List (κ × α)) : Bool :=
  l.any (fun p => p.1 = k)

/-- `d[k] = v` on an ordered dictionary: replace in place if the key is
present, otherwise append at the end. -/
def setKey {κ α : Type} [DecidableEq κ] (k : κ) (v : α) : List (κ × α) → List (κ × α)
  | [] => [(k, v)]
  | p :: ps => if p.1 = k then (p.1, v) :: ps else p :: setKey k v ps

/-- `del d[k]` on an ordered dictionary (first occurrence; keys are unique). -/
def eraseKey {κ α : Type} [DecidableEq κ] (k : κ) : List (κ × α) → List (κ × α)
  | [] => []
  | p :: ps => if p.1 = k then ps else p :: eraseKey k ps

/-- A document's field mapping: ordered field-name/value pairs. -/
abbrev Doc := List (String × Val)

/-- `dst.update(src)` on dictionaries: merge `src` into `dst` in order. -/
def dictUpdate (dst src : Doc) : Doc :=
  src.foldl (fun d p => setKey p.1 p.2 d) dst

namespace operations

/-- `operations.delete(field)`: remove `field` from the document if present. -/
def delete (field : String) : Doc → Option Doc := fun doc =>
  if containsKey field doc then some (eraseKey field doc) else some doc

/-- `operations.add(field, n)`: `doc[field] += n` if present, else `doc[field] = n`. -/
def add (field : String) (n : Val) : Doc → Option Doc := fun doc =>
  match lookupKey field doc with
  | some v => (Val.addOp v n).map (fun w => setKey field w doc)
  | none => some (setKey field n doc)

/-- `operations.subtract(field, n)`: `doc[field] -= n` if present, else `doc[field] = -n`. -/
def subtract (field : String) (n : Val) : Doc → Option Doc := fun doc =>
  match lookupKey field doc with
  | some v => (Val.subOp v n).map (fun w => setKey field w doc)
  | none => (Val.negOp n).map (fun w => setKey field w doc)

/-- `operations.set(field, val)`: unconditionally assign `doc[field] = val`. -/
def set (field : String) (val : Val) : Doc → Option Doc := fun doc =>
  some (setKey field val doc)

/-- `operations.increment(field)`: `doc[field] += 1` if present, else `doc[field] = 1`. -/
def increment (field : String) : Doc → Option Doc := fun doc =>
  match lookupKey field doc with
  | some v => (Val.addOp v (.vInt 1)).map (fun w => setKey field w doc)
  | none => some (setKey field (.vInt 1) doc)

/-- `operations.decrement(field)`: `doc[field] -= 1` if present, else `doc[field] = -1`. -/
def decrement (field : String) : Doc → Option Doc := fun doc =>
  match lookupKey field doc with
  | some v => (Val.subOp v (.vInt 1)).map (fun w => setKey field w doc)
  | none => some (setKey field (.vInt (-1)) doc)

end operations

/-- The LRU cache of `tinydb/utils.py`: an `OrderedDict` listed from least-
recently to most-recently used, plus an optional capacity (`None` disables
eviction). -/
structure LRUCache (K V : Type) where
  capacity : Option Nat
  cache : List (K × V)

namespace LRUCache

variable {K V : Type} [DecidableEq K]

/-- `LRUCache(capacity)`: a fresh, empty cache. -/
def empty (capacity : Option Nat) : LRUCache K V := ⟨capacity, []⟩

/-- `len(cache)`. -/
def size (c : LRUCache K V) : Nat := c.cache.length

/-- `key in cache`. -/
def contains (c : LRUCache K V) (k : K) : Bool := containsKey k c.cache

/-- `cache[key] = value`: drop any existing entry for `key`, append the new
entry at the most-recently-used end, then if a finite capacity is exceeded
evict the single least-recently-used entry (`popitem(last=False)`). -/
def setItem (c : LRUCache K V) (k : K) (v : V) : LRUCache K V :=
  let cache1 := if containsKey k c.cache then eraseKey k c.cache else c.cache
  let cache2 := cache1 ++ [(k, v)]
  match c.capacity with
  | some cap =>
      if cap < cache2.length then { c with cache := cache2.tail }
      else { c with cache := cache2 }
  | none => { c with cache := cache2 }

/-- `cache[key]`: pop the entry and re-append it at the most-recently-used
end; a missing key raises `KeyError` (modelled as `none`, no state change). -/
def getItem (c : LRUCache K V) (k : K) : LRUCache K V × Option V :=
  match lookupKey k c.cache with
  | some v => ({ c with cache := eraseKey k c.cache ++ [(k, v)] }, some v)
  | none => (c, none)

/-- `cache.clear()`: drop all entries, keep the capacity. -/
def clear (c : LRUCache K V) : LRUCache K V := { c with cache := [] }

/-- Insert a list of key/value pairs in order via `setItem`. -/
def setAll (c : LRUCache K V) (ps : List (K × V)) : LRUCache K V :=
  ps.foldl (fun c p => c.setItem p.1 p.2) c

end LRUCache

/-- The concrete example document of the specification: `{char: "a", int: 1}`. -/
def exampleDoc : Doc := [("char", .vStr "a"), ("int", .vInt 1)]

/-- A Python dictionary key as used by the table engine: stored document IDs
are strings (`str(doc_id)`), while `get`/`contains` probe with integers. -/
inductive PyKey where
  | s : String → PyKey
  | i : Int → PyKey
deriving DecidableEq, Repr

/-- The numeric value of a decimal digit character, if it is one. -/
def digitOfChar (c : Char) : Option Nat :=
  if '0' ≤ c ∧ c ≤ '9' then some (c.toNat - '0'.toNat) else none

/-- Parse a non-empty run of decimal digits. -/
def natOfDigits : List Char → Option Nat
  | [] => none
  | cs => cs.foldl (fun acc c =>
      match acc, digitOfChar c with
      | some n, some d => some (n * 10 + d)
      | _, _ => none) (some 0)

/-- Python `int(s)` on a string: optional leading minus then decimal digits;
`none` models a raised `ValueError`. -/
def pyIntOfString (s : String) : Option Int :=
  match s.data with
  | '-' :: rest => (natOfDigits rest).map (fun n => -(n : Int))
  | cs => (natOfDigits cs).map (fun n => (n : Int))

/-- The decimal digit character for a value below 10. -/
def charOfDigit (n : Nat) : Char := Char.ofNat ('0'.toNat + n)

/-- Decimal digits of a number, most significant first (`fuel`-bounded
structural recursion; any `fuel` above the digit count is exact). -/
def natDigitsAux : Nat → Nat → List Char
  | 0, _ => []
  | fuel + 1, n =>
      if n = 0 then [] else natDigitsAux fuel (n / 10) ++ [charOfDigit (n % 10)]

/-- Python `str(n)` for a natural number. -/
def pyStringOfNat (n : Nat) : String :=
  if n = 0 then "0" else String.mk (natDigitsAux (n + 1) n)

/-- Python `str(i)` for an integer. -/
def pyStringOfInt (i : Int) : String :=
  if i < 0 then "-" ++ pyStringOfNat i.natAbs else pyStringOfNat i.natAbs

/-- Python `int(k)` on a table key (string keys are parsed; inside the engine
they are always `str` of an integer, so the `ValueError` default is inert). -/
def PyKey.toInt : PyKey → Int
  | .s v => (pyIntOfString v).getD 0
  | .i v => v

/-- One table's stored data: ordered mapping from key to field mapping. -/
abbrev TableData := List (PyKey × Doc)

/-- The whole persisted state: table name to table data. -/
abbrev DBData := List (String × TableData)

/-- A storage collaborator with value semantics: `read` returns the persisted
state or `None`; `write` replaces it, or raises when `writeFails` is set
(modelling a storage error). -/
structure Storage where
  memory : Option DBData
  writeFails : Bool

/-- `storage.read()`. -/
def Storage.read (s : Storage) : Option DBData := s.memory

/-- `storage.write(data)`: `none` models a raised storage error.  What a
failing backend leaves on its medium is backend-specific and possibly a
partial write (`JSONStorage.write` truncates the file before dumping), so
the `memory` a failed write leaves behind is NOT meaningful and no theorem
below constrains the persisted state after a failed write. -/
def Storage.write (s : Storage) (d : DBData) : Option Storage :=
  if s.writeFails then none else some { s with memory := some d }

/-- A query predicate: callable on a document, with an identity used as the
cache key (Python keys the cache by the query object itself) and an
`is_cacheable` capability flag. -/
structure QueryLike where
  qid : Nat
  test : Doc → Bool
  cacheable : Bool

/-- The `Document` class: a field mapping together with its `doc_id`. -/
structure Document where
  value : Doc
  doc_id : Int
deriving DecidableEq, Repr

/-- The `Table` class state: its storage, name, query cache and the
`_next_id` attribute. -/
structure Table where
  storage : Storage
  name : String
  queryCache : LRUCache Nat (List Document)
  nextId : Option Int

/-- A heap of document objects; addresses are list indices.  Inside one
`_update_table` call the temporary integer-keyed dictionary aliases the
stored documents, so the updater is modelled on explicit references. -/
abbrev Heap := List Doc

/-- The temporary dictionary handed to an updater: `{int(k): v for k, v in
table_data.items()}`, holding document references. -/
abbrev TempTable := List (PyKey × Nat)

/-- `Table._read_table()` (the later, overriding definition in the source):
read the whole state, return this table's partition or an empty mapping. -/
def Table.readTable (t : Table) : TableData :=
  (lookupKey t.name (t.storage.read.getD [])).getD []

/-- `Table._update_table(updater)` (the later, overriding definition), made
generic in the updater's captured locals `σ`.  The updater receives the
fresh integer-keyed dictionary and the document heap it aliases; afterwards
the ORIGINAL `table_data` is re-embedded (with its documents re-read from the
heap, reflecting in-place mutations, but ignoring any keys the updater added
to or removed from the temporary dictionary) and the whole state is written
back.  Returns the updated table, a write-success flag, and the updater's
locals. -/
def Table.updateTableRun {σ : Type} (t : Table)
    (updater : TempTable → Heap → σ × TempTable × Heap) : (Table × Bool) × σ :=
  let data := t.storage.read.getD []
  let table_data := (lookupKey t.name data).getD []
  let heap : Heap := table_data.map Prod.snd
  let temp : TempTable := table_data.enum.map (fun p => (PyKey.i p.2.1.toInt, p.1))
  let r := updater temp heap
  let heap2 := r.2.2
  let table_data2 : TableData := table_data.enum.map (fun p => (p.2.1, heap2.getD p.1 []))
  let data2 := setKey t.name table_data2 data
  match t.storage.write data2 with
  | some s2 => (({ t with storage := s2 }, true), r.1)
  | none => ((t, false), r.1)

/-- `Table.clear_cache()`. -/
def Table.clearCache (t : Table) : Table :=
  { t with queryCache := t.queryCache.clear }

/-- `Table._get_next_id()` (the later, overriding definition): re-read the
stored table; `max(int(k) for k in table.keys()) + 1` if non-empty, else `1`;
the result is also assigned to `self._next_id`. -/
def Table.getNextId (t : Table) : Table × Int :=
  let table := t.readTable
  if table.isEmpty then ({ t with nextId := some 1 }, 1)
  else
    let n := ((table.map (fun p => p.1.toInt)).max?.getD 0) + 1
    ({ t with nextId := some n }, n)

/-- `Table.insert(document)`: compute the next ID, run an updater that adds
`str(doc_id) ↦ dict(document)` to the temporary dictionary (allocating a
fresh document object), clear the cache, return the ID.  `none` models a
propagated storage error (in which case the cache is not cleared). -/
def Table.insert (t : Table) (document : Doc) : Table × Option Int :=
  let r := t.getNextId
  let t1 := r.1
  let docId := r.2
  let run := t1.updateTableRun (fun data heap =>
    ((), setKey (PyKey.s (pyStringOfInt docId)) heap.length data, heap ++ [document]))
  let t2 := run.1.1
  if run.1.2 then (t2.clearCache, some docId) else (t2, none)

/-- `Table.insert_multiple(documents)`: one `_update_table` call whose updater
loops over the documents, calling `self._get_next_id()` (which re-reads the
unchanged storage) for each, adding each to the temporary dictionary and
appending the assigned ID to `doc_ids`. -/
def Table.insertMultiple (t : Table) (documents : List Doc) :
    Table × Option (List Int) :=
  let run := t.updateTableRun (fun data heap =>
    let r := documents.foldl
      (fun (acc : (Table × List Int) × TempTable × Heap) document =>
        let tc := acc.1.1
        let ids := acc.1.2
        let g := tc.getNextId
        ((g.1, ids ++ [g.2]),
         setKey (PyKey.s (pyStringOfInt g.2)) acc.2.2.length acc.2.1,
         acc.2.2 ++ [document]))
      ((t, []), data, heap)
    (r.1, r.2.1, r.2.2))
  let t2 := { run.1.1 with nextId := run.2.1.nextId }
  if run.1.2 then (t2.clearCache, some run.2.2) else (t2, none)

/-- `Table.all()`: every stored document, wrapped as `Document` with its
parsed ID. -/
def Table.all (t : Table) : List Document :=
  (t.readTable).map (fun p => Document.mk p.2 p.1.toInt)

/-- `Table.search(cond)`: serve from the query cache when the predicate is
cached, otherwise scan the stored table and cache the result if the
predicate declares itself cacheable. -/
def Table.search (t : Table) (cond : QueryLike) : Table × List Document :=
  if t.queryCache.contains cond.qid then
    let g := t.queryCache.getItem cond.qid
    ({ t with queryCache := g.1 }, g.2.getD [])
  else
    let table_data := t.readTable
    let docs := (table_data.filter (fun p => cond.test p.2)).map
      (fun p => Document.mk p.2 p.1.toInt)
    if cond.cacheable then
      ({ t with queryCache := t.queryCache.setItem cond.qid docs }, docs)
    else (t, docs)

/-- Result of `Table.get`: `None`, a single document, or a list. -/
inductive GetResult where
  | noneRes : GetResult
  | one : Document → GetResult
  | many : List Document → GetResult
deriving DecidableEq, Repr

/-- `Table.get(cond, doc_id, doc_ids)`: the `doc_id` branch tests
`doc_id in table` with an integer key against the string-keyed stored
mapping; the `doc_ids` branch collects `table[id]` for ids present; the
`cond` branch returns the first result of `search`. -/
def Table.get (t : Table) (cond : Option QueryLike) (docId : Option Int)
    (docIds : Option (List Int)) : Table × GetResult :=
  match docId with
  | some did =>
      let table := t.readTable
      if containsKey (PyKey.i did) table then
        (t, .one (Document.mk ((lookupKey (PyKey.i did) table).getD []) did))
      else (t, .noneRes)
  | none =>
    match docIds with
    | some dids =>
        let table := t.readTable
        (t, .many ((dids.filter (fun d => containsKey (PyKey.i d) table)).map
          (fun d => Document.mk ((lookupKey (PyKey.i d) table).getD []) d)))
    | none =>
      match cond with
      | some c =>
          let s := t.search c
          (s.1, match s.2 with
                | [] => .noneRes
                | d :: _ => .one d)
      | none => (t, .noneRes)

/-- The `fields` argument of `Table.update`: a field mapping to merge, or a
callable transform applied to the document in place. -/
inductive UpdFields where
  | mapping : Doc → UpdFields
  | transform : (Doc → Doc) → UpdFields

/-- Apply `fields` to a document: `fields(doc)` when callable, else
`doc.update(fields)`. -/
def UpdFields.apply : UpdFields → Doc → Doc
  | .mapping m, doc => dictUpdate doc m
  | .transform f, doc => f doc

/-- The filter of `Table.update` / `Table.remove`:
`(doc_ids is None or doc_id in doc_ids) and (cond is None or cond(doc))`. -/
def matchesFilter (cond : Option QueryLike) (docIds : Option (List Int))
    (docId : Int) (doc : Doc) : Bool :=
  (match docIds with
   | none => true
   | some ids => ids.contains docId) &&
  (match cond with
   | none => true
   | some c => c.test doc)

/-- `Table.update(fields, cond, doc_ids)`: the updater walks the temporary
dictionary; each matching document is mutated in place (visible through the
heap), and its ID collected.  The cache is cleared after a successful
write. -/
def Table.update (t : Table) (fields : UpdFields) (cond : Option QueryLike)
    (docIds : Option (List Int)) : Table × Option (List Int) :=
  let run := t.updateTableRun (fun data heap =>
    let r := data.foldl
      (fun (acc : List Int × Heap) p =>
        let doc := acc.2.getD p.2 []
        if matchesFilter cond docIds p.1.toInt doc then
          (acc.1 ++ [p.1.toInt], acc.2.set p.2 (fields.apply doc))
        else acc)
      ([], heap)
    (r.1, data, r.2))
  if run.1.2 then (run.1.1.clearCache, some run.2) else (run.1.1, none)

/-- `Table.remove(cond, doc_ids)`: the updater deletes matching keys from the
temporary dictionary (a structural change) and collects their IDs. -/
def Table.remove (t : Table) (cond : Option QueryLike)
    (docIds : Option (List Int)) : Table × Option (List Int) :=
  let run := t.updateTableRun (fun data heap =>
    let r := (data.map Prod.fst).foldl
      (fun (acc : List Int × TempTable) k =>
        match lookupKey k acc.2 with
        | some addr =>
            if matchesFilter cond docIds k.toInt (heap.getD addr []) then
              (acc.1 ++ [k.toInt], eraseKey k acc.2)
            else acc
        | none => acc)
      ([], data)
    (r.1, r.2, heap))
  if run.1.2 then (run.1.1.clearCache, some run.2) else (run.1.1, none)

/-- `Table.truncate()`: the updater clears the temporary dictionary. -/
def Table.truncate (t : Table) : Table × Bool :=
  let run := t.updateTableRun (fun _ heap => ((), [], heap))
  if run.1.2 then (run.1.1.clearCache, true) else (run.1.1, false)

/-- `Table.count(cond)`: `len(self.search(cond))`. -/
def Table.count (t : Table) (cond : QueryLike) : Table × Nat :=
  let s := t.search cond
  (s.1, s.2.length)

/-- The `document` argument of `Table.upsert`: a plain mapping or an
identified `Document` instance. -/
inductive UpsertArg where
  | plain : Doc → UpsertArg
  | ident : Document → UpsertArg

/-- `Table.upsert(document, cond)`.  On the identified-`Document` branch the
source does `document = dict(document); del document["doc_id"]` — but
`doc_id` is an attribute of `Document`, not a key of the mapping, so the
`del` raises `KeyError` unless the fields themselves contain a `"doc_id"`
key.  Errors (`KeyError`, storage failures) are modelled as `.error`. -/
def Table.upsert (t : Table) (document : UpsertArg) (cond : Option QueryLike) :
    Table × Except String (List Int) :=
  match document with
  | .ident d =>
      if containsKey "doc_id" d.value then
        let fields := eraseKey "doc_id" d.value
        let u := t.update (.mapping fields) none (some [d.doc_id])
        match u.2 with
        | some updated =>
            if updated.isEmpty then
              let ins := u.1.insert fields
              match ins.2 with
              | some nid => (ins.1, .ok [nid])
              | none => (ins.1, .error "StorageError")
            else (u.1, .ok updated)
        | none => (u.1, .error "StorageError")
      else (t, .error "KeyError: doc_id")
  | .plain d =>
      let u := t.update (.mapping d) cond none
      match u.2 with
      | some updated =>
          if updated.isEmpty then
            let ins := u.1.insert d
            match ins.2 with
            | some nid => (ins.1, .ok [nid])
            | none => (ins.1, .error "StorageError")
          else (u.1, .ok updated)
      | none => (u.1, .error "StorageError")

/-- Spec-side description of a fresh scan of the stored table: every stored
document satisfying the predicate, in storage order.  Stated from the
specification's words for `search` ("scan every stored document, keep those
for which the predicate is true"), to compare against `Table.search`. -/
def Table.searchFresh (t : Table) (cond : QueryLike) : List Document :=
  ((t.readTable).filter (fun p => cond.test p.2)).map
    (fun p => Document.mk p.2 p.1.toInt)

/-- A table over empty storage (nothing persisted yet), with the default
query-cache capacity of 10. -/
def emptyTable : Table :=
  { storage := { memory := none, writeFails := false }
    name := "_default"
    queryCache := LRUCache.empty (some 10)
    nextId := none }

/-- The field mapping `{a: 1}`. -/
def docA : Doc := [("a", .vInt 1)]

/-- A table whose storage holds one document `{a: 1}` under ID 1. -/
def tableOne : Table :=
  { storage := { memory := some [("_default", [(.s "1", docA)])], writeFails := false }
    name := "_default"
    queryCache := LRUCache.empty (some 10)
    nextId := none }

/-- The always-true cacheable predicate, used as a concrete query. -/
def trueQuery : QueryLike := { qid := 0, test := fun _ => true, cacheable := true }

/-- A cached result list used to populate a query cache in examples. -/
def cachedDocs : List Document := [Document.mk docA 1]

/-- A table with one stored document, one cached query result, and a storage
whose next write raises. -/
def tableFailingWrite : Table :=
  { storage := { memory := some [("_default", [(.s "1", docA)])], writeFails := true }
    name := "_default"
    queryCache := { capacity := some 10, cache := [(0, cachedDocs)] }
    nextId := none }

/-- C7: on the document `{char: "a", int: 1}`, each update operation yields the
stated mapping: `delete("int")` gives `{char: "a"}`; `add("int", 5)` gives
`int = 6`; `add("char", "xyz")` gives `char = "axyz"`; `subtract("int", 5)`
gives `int = -4`; `set("char", "xyz")` gives `char = "xyz"` with `int`
unchanged; `increment("int")` gives `2`; `decrement("int")` gives `0`.
Each transform is a state transformer on the field mapping (the embedding of
an in-place mutation returning nothing). -/
theorem c7_operation_semantics :
    operations.delete "int" exampleDoc = some [("char", .vStr "a")] ∧
    operations.add "int" (.vInt 5) exampleDoc
      = some [("char", .vStr "a"), ("int", .vInt 6)] ∧
    operations.add "char" (.vStr "xyz") exampleDoc
      = some [("char", .vStr "axyz"), ("int", .vInt 1)] ∧
    operations.subtract "int" (.vInt 5) exampleDoc
      = some [("char", .vStr "a"), ("int", .vInt (-4))] ∧
    operations.set "char" (.vStr "xyz") exampleDoc
      = some [("char", .vStr "xyz"), ("int", .vInt 1)] ∧
    operations.increment "int" exampleDoc
      = some [("char", .vStr "a"), ("int", .vInt 2)] ∧
    operations.decrement "int" exampleDoc
      = some [("char", .vStr "a"), ("int", .vInt 0)] := by
  refine ⟨rfl, rfl, rfl, rfl, rfl, rfl, rfl⟩

/-- C1 fails on the code: on an empty table, `insert({a: 1})` returns ID 1,
but the inserted mapping is added only to the temporary dictionary that
`_update_table` discards, so nothing is persisted; moreover `get(doc_id=1)`
probes the string-keyed stored mapping with an integer key.  The round trip
returns `None` instead of a document with fields `{a: 1}`. -/
theorem c1_roundtrip_fails :
    (emptyTable.insert docA).2 = some 1 ∧
    ((emptyTable.insert docA).1.get none (some 1) none).2 = GetResult.noneRes ∧
    GetResult.noneRes ≠ GetResult.one (Document.mk docA 1) := by
  refine ⟨rfl, rfl, by decide⟩

/-- C3 fails on the code: `truncate()` clears only the temporary dictionary,
which `_update_table` discards, so the stored documents survive.  On a table
holding `{a: 1}` under ID 1, after `truncate()` the table still returns that
document from `all()` and `count` of the always-true predicate is 1, not 0. -/
theorem c3_truncate_fails :
    (tableOne.truncate).1.all = [Document.mk docA 1] ∧
    ((tableOne.truncate).1.count trueQuery).2 = 1 := by
  refine ⟨rfl, rfl⟩

/-- C5 fails on the code: `insert_multiple` calls `_get_next_id()` for each
document, and that method re-reads the unchanged storage every time, so all
documents of one call receive the same ID (each overwriting the previous in
the temporary dictionary) — the returned IDs are not strictly increasing.
On an empty table, inserting two documents returns `[1, 1]`; nothing is
persisted either. -/
theorem c5_insert_multiple_fails :
    (emptyTable.insertMultiple [[], []]).2 = some [1, 1] ∧
    (emptyTable.insertMultiple [[], []]).1.all = [] := by
  refine ⟨rfl, rfl⟩

/-- C6 fails on the code: for an identified `Document`, `upsert` executes
`del document["doc_id"]`, but `doc_id` is an attribute of the `Document`
class, not a key of the field mapping, so a well-formed identified document
(whose fields do not contain a literal `"doc_id"` key) always raises
`KeyError` instead of updating or inserting. -/
theorem c6_upsert_raises :
    (tableOne.upsert (.ident (Document.mk docA 1)) none).2
      = Except.error "KeyError: doc_id" := by
  rfl

theorem getNextId_fst_storage (t : Table) : (t.getNextId).1.storage = t.storage := by
  simp only [Table.getNextId]
  split <;> rfl

theorem getNextId_fst_queryCache (t : Table) :
    (t.getNextId).1.queryCache = t.queryCache := by
  simp only [Table.getNextId]
  split <;> rfl

theorem getNextId_fst_name (t : Table) : (t.getNextId).1.name = t.name := by
  simp only [Table.getNextId]
  split <;> rfl

theorem clearCache_cache (t : Table) : (t.clearCache).queryCache.cache = [] := rfl

theorem clearCache_storage (t : Table) : (t.clearCache).storage = t.storage := rfl

theorem updateTableRun_fail {σ : Type} (t : Table)
    (up : TempTable → Heap → σ × TempTable × Heap)
    (h : t.storage.writeFails = true) :
    (t.updateTableRun up).1 = (t, false) := by
  unfold Table.updateTableRun Storage.write
  simp [h]

theorem updateTableRun_ok_snd {σ : Type} (t : Table)
    (up : TempTable → Heap → σ × TempTable × Heap)
    (h : t.storage.writeFails = false) :
    (t.updateTableRun up).1.2 = true := by
  unfold Table.updateTableRun Storage.write
  simp [h]

theorem updateTableRun_ok_fst {σ : Type} (t : Table)
    (up : TempTable → Heap → σ × TempTable × Heap)
    (h : t.storage.writeFails = false) :
    ∃ td2 : TableData,
      (t.updateTableRun up).1.1
        = { t with storage :=
              { t.storage with
                  memory := some (setKey t.name td2 (t.storage.memory.getD [])) } } := by
  unfold Table.updateTableRun Storage.write Storage.read
  simp [h]
  exact ⟨_, rfl⟩

theorem containsKey_nil {κ α : Type} [DecidableEq κ] (k : κ) :
    containsKey k ([] : List (κ × α)) = false := rfl

theorem containsKey_append {κ α : Type} [DecidableEq κ] (k : κ)
    (l1 l2 : List (κ × α)) :
    containsKey k (l1 ++ l2) = (containsKey k l1 || containsKey k l2) := by
  simp [containsKey, List.any_append]

theorem containsKey_eq_false_iff {κ α : Type} [DecidableEq κ] (k : κ)
    (l : List (κ × α)) :
    containsKey k l = false ↔ k ∉ l.map Prod.fst := by
  simp only [containsKey, List.any_eq_false, List.mem_map, decide_eq_true_eq]
  constructor
  · rintro h ⟨p, hp, hpk⟩
    exact h p hp hpk
  · intro h p hp hpk
    exact h ⟨p, hp, hpk⟩

theorem containsKey_eq_true_iff {κ α : Type} [DecidableEq κ] (k : κ)
    (l : List (κ × α)) :
    containsKey k l = true ↔ k ∈ l.map Prod.fst := by
  simp only [containsKey, List.any_eq_true, List.mem_map, decide_eq_true_eq]

theorem containsKey_eraseKey_ne {κ α : Type} [DecidableEq κ] (k j : κ)
    (l : List (κ × α)) (hne : k ≠ j) :
    containsKey k (eraseKey j l) = containsKey k l := by
  induction l with
  | nil => rfl
  | cons p ps ih =>
      simp only [eraseKey]
      by_cases hp : p.1 = j
      · rw [if_pos hp]
        simp only [containsKey, List.any_cons]
        have hd : decide (p.1 = k) = false := by
          simp only [decide_eq_false_iff_not]
          intro hk
          exact hne (hk ▸ hp)
        rw [hd, Bool.false_or]
      · rw [if_neg hp]
        simp only [containsKey, List.any_cons] at ih ⊢
        rw [ih]

theorem mem_of_mem_eraseKey {κ α : Type} [DecidableEq κ] (p : κ × α) (j : κ)
    (l : List (κ × α)) (h : p ∈ eraseKey j l) : p ∈ l := by
  induction l with
  | nil => simp [eraseKey] at h
  | cons q qs ih =>
      simp only [eraseKey] at h
      by_cases hq : q.1 = j
      · rw [if_pos hq] at h
        exact List.mem_cons_of_mem q h
      · rw [if_neg hq] at h
        rcases List.mem_cons.mp h with h1 | h1
        · exact h1 ▸ List.mem_cons_self q qs
        · exact List.mem_cons_of_mem q (ih h1)

theorem containsKey_eraseKey_false {κ α : Type} [DecidableEq κ] (k j : κ)
    (l : List (κ × α)) (h : containsKey k l = false) :
    containsKey k (eraseKey j l) = false := by
  by_cases hkj : k = j
  · subst hkj
    rw [containsKey_eq_false_iff] at h ⊢
    intro hmem
    obtain ⟨p, hp, hpk⟩ := List.mem_map.mp hmem
    exact h (List.mem_map.mpr ⟨p, mem_of_mem_eraseKey p k l hp, hpk⟩)
  · rw [containsKey_eraseKey_ne k j l hkj]
    exact h

theorem lookupKey_of_mem_nodup {κ α : Type} [DecidableEq κ] (i : κ) (vi : α)
    (l : List (κ × α)) (hnd : (l.map Prod.fst).Nodup) (hmem : (i, vi) ∈ l) :
    lookupKey i l = some vi := by
  induction l with
  | nil => exact absurd hmem (List.not_mem_nil _)
  | cons p ps ih =>
      simp only [lookupKey]
      rcases List.mem_cons.mp hmem with h1 | h1
      · rw [if_pos (by rw [← h1])]
        rw [← h1]
      · have hnd1 : p.1 ∉ ps.map Prod.fst ∧ (ps.map Prod.fst).Nodup := by
          rw [List.map_cons, List.nodup_cons] at hnd
          exact hnd
        have hi : i ∈ ps.map Prod.fst := List.mem_map.mpr ⟨(i, vi), h1, rfl⟩
        have hp : p.1 ≠ i := by
          intro hk
          exact hnd1.1 (hk ▸ hi)
        rw [if_neg hp]
        exact ih hnd1.2 h1

theorem eraseKey_length_of_contains {κ α : Type} [DecidableEq κ] (i : κ)
    (l : List (κ × α)) (h : containsKey i l = true) :
    (eraseKey i l).length + 1 = l.length := by
  induction l with
  | nil => simp [containsKey] at h
  | cons p ps ih =>
      simp only [eraseKey]
      by_cases hp : p.1 = i
      · rw [if_pos hp]
        rfl
      · rw [if_neg hp]
        simp only [List.length_cons]
        have hps : containsKey i ps = true := by
          simp only [containsKey, List.any_cons] at h
          rcases Bool.or_eq_true_iff.mp h with h1 | h1
          · exact absurd (of_decide_eq_true h1) hp
          · exact h1
        rw [← ih hps]

theorem setItem_capacity {K V : Type} [DecidableEq K] (c : LRUCache K V)
    (k : K) (v : V) : (c.setItem k v).capacity = c.capacity := by
  simp only [LRUCache.setItem]
  repeat' split
  all_goals rfl

theorem getItem_fst_capacity {K V : Type} [DecidableEq K] (c : LRUCache K V)
    (k : K) : (c.getItem k).1.capacity = c.capacity := by
  simp only [LRUCache.getItem]
  cases lookupKey k c.cache <;> rfl

theorem setAll_capacity {K V : Type} [DecidableEq K] (ps : List (K × V)) :
    ∀ c : LRUCache K V, (c.setAll ps).capacity = c.capacity := by
  induction ps with
  | nil => intro c; rfl
  | cons p ps ih =>
      intro c
      rw [show c.setAll (p :: ps) = (c.setItem p.1 p.2).setAll ps from rfl,
        ih, setItem_capacity]

theorem setItem_fresh_small {K V : Type} [DecidableEq K] (c : LRUCache K V)
    (k : K) (v : V) (hfresh : containsKey k c.cache = false)
    (hcap : ∀ cap, c.capacity = some cap → c.cache.length + 1 ≤ cap) :
    (c.setItem k v).cache = c.cache ++ [(k, v)] := by
  simp only [LRUCache.setItem, hfresh, Bool.false_eq_true, if_false]
  split
  · rename_i cap heq
    have hle := hcap cap heq
    rw [if_neg (by simp only [List.length_append, List.length_cons, List.length_nil]; omega)]
  · rfl

theorem setItem_evict {K V : Type} [DecidableEq K] (c : LRUCache K V)
    (k : K) (v : V) (cap : Nat) (hfresh : containsKey k c.cache = false)
    (hcap : c.capacity = some cap) (hlen : cap < c.cache.length + 1) :
    (c.setItem k v).cache = (c.cache ++ [(k, v)]).tail := by
  simp only [LRUCache.setItem, hfresh, Bool.false_eq_true, if_false]
  split
  · rename_i cap2 heq
    obtain rfl : cap2 = cap := Option.some.inj (heq.symm.trans hcap)
    rw [if_pos (by simp only [List.length_append, List.length_cons, List.length_nil]; omega)]
  · rename_i heq
    rw [heq] at hcap
    exact absurd hcap (by simp)

theorem setAll_fresh {K V : Type} [DecidableEq K] (ps : List (K × V)) :
    ∀ c : LRUCache K V, (ps.map Prod.fst).Nodup →
    (∀ p ∈ ps, containsKey p.1 c.cache = false) →
    (∀ cap, c.capacity = some cap → c.cache.length + ps.length ≤ cap) →
    (c.setAll ps).cache = c.cache ++ ps := by
  induction ps with
  | nil => intro c _ _ _; simp [LRUCache.setAll]
  | cons p ps ih =>
      intro c hnd hfresh hcap
      have hnd1 : p.1 ∉ ps.map Prod.fst ∧ (ps.map Prod.fst).Nodup := by
        rw [List.map_cons, List.nodup_cons] at hnd
        exact hnd
      have hstep : (c.setItem p.1 p.2).cache = c.cache ++ [p] := by
        rw [setItem_fresh_small c p.1 p.2 (hfresh p (List.mem_cons_self p ps))
          (fun cap hc => by have := hcap cap hc; simp at this ⊢; omega)]
      have hnd2 : (ps.map Prod.fst).Nodup := hnd1.2
      have hfresh2 : ∀ q ∈ ps, containsKey q.1 (c.setItem p.1 p.2).cache = false := by
        intro q hq
        rw [hstep, containsKey_append]
        have h1 : containsKey q.1 c.cache = false := hfresh q (List.mem_cons_of_mem p hq)
        have h2 : containsKey q.1 [p] = false := by
          rw [containsKey_eq_false_iff]
          simp only [List.map_cons, List.map_nil, List.mem_singleton]
          intro hk
          exact hnd1.1 (hk ▸ List.mem_map.mpr ⟨q, hq, rfl⟩)
        rw [h1, h2]
        rfl
      have hcap2 : ∀ cap, (c.setItem p.1 p.2).capacity = some cap →
          (c.setItem p.1 p.2).cache.length + ps.length ≤ cap := by
        intro cap hc
        rw [setItem_capacity] at hc
        rw [hstep]
        have := hcap cap hc
        simp at this ⊢
        omega
      rw [show c.setAll (p :: ps) = (c.setItem p.1 p.2).setAll ps from rfl,
        ih _ hnd2 hfresh2 hcap2, hstep, List.append_assoc, List.singleton_append]

theorem setAll_append {K V : Type} [DecidableEq K] (c : LRUCache K V)
    (l1 l2 : List (K × V)) : c.setAll (l1 ++ l2) = (c.setAll l1).setAll l2 := by
  simp [LRUCache.setAll, List.foldl_append]

theorem lru_evicts_first_inserted {K V : Type} [DecidableEq K] (k0 : K) (v0 : V)
    (ps : List (K × V)) (q : K × V)
    (hnd : (k0 :: (ps.map Prod.fst ++ [q.1])).Nodup) :
    ((LRUCache.empty (K := K) (V := V) (some (ps.length + 1))).setAll
      (((k0, v0) :: ps) ++ [q])).cache = ps ++ [q] := by
  have hk0 : k0 ∉ ps.map Prod.fst ++ [q.1] := (List.nodup_cons.mp hnd).1
  have hnd2 : (ps.map Prod.fst ++ [q.1]).Nodup := (List.nodup_cons.mp hnd).2
  have hfrontnd : (((k0, v0) :: ps).map Prod.fst).Nodup := by
    rw [List.map_cons, List.nodup_cons]
    exact ⟨fun hmem => hk0 (List.mem_append_left _ hmem), hnd2.of_append_left⟩
  have hc1 : ((LRUCache.empty (K := K) (V := V)
      (some (ps.length + 1))).setAll ((k0, v0) :: ps)).cache = (k0, v0) :: ps := by
    rw [setAll_fresh ((k0, v0) :: ps) _ hfrontnd (fun p _ => containsKey_nil _)
      (fun cap hc => by
        simp only [LRUCache.empty, Option.some.injEq] at hc
        simp [LRUCache.empty]
        omega)]
    simp [LRUCache.empty]
  have hcapc1 : ((LRUCache.empty (K := K) (V := V)
      (some (ps.length + 1))).setAll ((k0, v0) :: ps)).capacity = some (ps.length + 1) := by
    rw [setAll_capacity]
    rfl
  have hfreshq : containsKey q.1 ((LRUCache.empty (K := K) (V := V)
      (some (ps.length + 1))).setAll ((k0, v0) :: ps)).cache = false := by
    rw [hc1, containsKey_eq_false_iff, List.map_cons]
    intro hmem
    rcases List.mem_cons.mp hmem with h1 | h1
    · exact hk0 (List.mem_append_right _ (h1 ▸ List.mem_singleton_self q.1))
    · exact (List.disjoint_of_nodup_append hnd2) h1 (List.mem_singleton_self q.1)
  rw [setAll_append, show ∀ c : LRUCache K V, c.setAll [q] = c.setItem q.1 q.2
    from fun c => rfl]
  rw [setItem_evict _ q.1 q.2 (ps.length + 1) hfreshq hcapc1
    (by rw [hc1]; simp), hc1]
  rfl

theorem lru_get_protects {K V : Type} [DecidableEq K] (full : List (K × V))
    (i : K) (vi : V) (qk : K) (qv : V)
    (hnd : (full.map Prod.fst).Nodup) (hmem : (i, vi) ∈ full)
    (hq : containsKey qk full = false) (hlen : 2 ≤ full.length) :
    containsKey i (((((LRUCache.empty (some full.length)).setAll
        full).getItem i).1.setItem qk qv).cache) = true ∧
    ((((LRUCache.empty (some full.length)).setAll full).getItem i).1.setItem
        qk qv).cache = (eraseKey i full).tail ++ [(i, vi), (qk, qv)] := by
  have hc1 : ((LRUCache.empty (K := K) (V := V)
      (some full.length)).setAll full).cache = full := by
    rw [setAll_fresh full _ hnd (fun p _ => containsKey_nil _)
      (fun cap hc => by
        simp only [LRUCache.empty, Option.some.injEq] at hc
        simp [LRUCache.empty]
        omega)]
    simp [LRUCache.empty]
  have hcapc1 : ((LRUCache.empty (K := K) (V := V)
      (some full.length)).setAll full).capacity = some full.length := by
    rw [setAll_capacity]
    rfl
  have hlook : lookupKey i ((LRUCache.empty (K := K) (V := V)
      (some full.length)).setAll full).cache = some vi := by
    rw [hc1]
    exact lookupKey_of_mem_nodup i vi full hnd hmem
  have hc2 : (((LRUCache.empty (K := K) (V := V)
      (some full.length)).setAll full).getItem i).1.cache
      = eraseKey i full ++ [(i, vi)] := by
    simp only [LRUCache.getItem, hlook]
    rw [hc1]
  have hcapc2 : (((LRUCache.empty (K := K) (V := V)
      (some full.length)).setAll full).getItem i).1.capacity = some full.length := by
    rw [getItem_fst_capacity, hcapc1]
  have hconti : containsKey i full = true :=
    (containsKey_eq_true_iff i full).mpr (List.mem_map.mpr ⟨(i, vi), hmem, rfl⟩)
  have hlen2 : (eraseKey i full).length + 1 = full.length :=
    eraseKey_length_of_contains i full hconti
  have hqi : qk ≠ i := by
    intro h
    rw [containsKey_eq_false_iff] at hq
    exact hq (h ▸ List.mem_map.mpr ⟨(i, vi), hmem, rfl⟩)
  have hfq : containsKey qk (eraseKey i full ++ [(i, vi)]) = false := by
    rw [containsKey_append, containsKey_eraseKey_false qk i full hq]
    have h2 : containsKey qk [(i, vi)] = false := by
      rw [containsKey_eq_false_iff]
      simp only [List.map_cons, List.map_nil, List.mem_singleton]
      exact hqi
    rw [h2]
    rfl
  have hev : ((((LRUCache.empty (K := K) (V := V)
      (some full.length)).setAll full).getItem i).1.setItem qk qv).cache
      = ((eraseKey i full ++ [(i, vi)]) ++ [(qk, qv)]).tail := by
    rw [setItem_evict _ qk qv full.length (by rw [hc2]; exact hfq) hcapc2
      (by rw [hc2]; simp; omega), hc2]
  have hnn : eraseKey i full ≠ [] := by
    intro h
    rw [h] at hlen2
    simp at hlen2
    omega
  obtain ⟨x, xs, hxs⟩ := List.exists_cons_of_ne_nil hnn
  constructor
  · rw [hev, hxs]
    simp [containsKey]
  · rw [hev, hxs]
    simp

theorem lru_unbounded_never_evicts {K V : Type} [DecidableEq K]
    (ps : List (K × V)) : ∀ (c : LRUCache K V), c.capacity = none → ∀ k : K,
    (containsKey k c.cache = true ∨ k ∈ ps.map Prod.fst) →
    containsKey k (c.setAll ps).cache = true := by
  induction ps with
  | nil =>
      intro c _ k hk
      rcases hk with h | h
      · exact h
      · simp at h
  | cons p ps ih =>
      intro c hcap k hk
      have hcap2 : (c.setItem p.1 p.2).capacity = none := by
        rw [setItem_capacity]
        exact hcap
      have hcache : (c.setItem p.1 p.2).cache
          = (if containsKey p.1 c.cache then eraseKey p.1 c.cache else c.cache)
            ++ [p] := by
        simp only [LRUCache.setItem]
        split
        · rename_i cap heq
          rw [hcap] at heq
          exact absurd heq (by simp)
        · rfl
      rw [show c.setAll (p :: ps) = (c.setItem p.1 p.2).setAll ps from rfl]
      apply ih _ hcap2 k
      by_cases hkp : k = p.1
      · left
        rw [hcache, containsKey_append]
        have hp : containsKey k [p] = true := by
          simp [containsKey, hkp]
        rw [hp, Bool.or_true]
      · rcases hk with h | h
        · left
          rw [hcache, containsKey_append]
          have h1 : containsKey k
              (if containsKey p.1 c.cache then eraseKey p.1 c.cache else c.cache)
              = true := by
            split
            · rw [containsKey_eraseKey_ne k p.1 c.cache hkp]
              exact h
            · exact h
          rw [h1, Bool.true_or]
        · right
          rw [List.map_cons] at h
          rcases List.mem_cons.mp h with h1 | h1
          · exact absurd h1 hkp
          · exact h1

theorem lookupKey_setKey_ne {κ α : Type} [DecidableEq κ] (k kw : κ) (v : α)
    (l : List (κ × α)) (hne : k ≠ kw) :
    lookupKey k (setKey kw v l) = lookupKey k l := by
  induction l with
  | nil =>
      simp only [setKey, lookupKey]
      rw [if_neg (Ne.symm hne)]
  | cons p ps ih =>
      simp only [setKey]
      by_cases hp : p.1 = kw
      · rw [if_pos hp]
        simp only [lookupKey]
        rw [if_neg (show p.1 ≠ k by rw [hp]; exact Ne.symm hne),
          if_neg (show p.1 ≠ k by rw [hp]; exact Ne.symm hne)]
      · rw [if_neg hp]
        simp only [lookupKey, ih]

theorem readTable_congr (t2 t : Table) (hm : t2.storage.memory = t.storage.memory)
    (hn : t2.name = t.name) : t2.readTable = t.readTable := by
  simp [Table.readTable, Storage.read, hm, hn]

theorem updateTableRun_frame {σ : Type} (t : Table)
    (up : TempTable → Heap → σ × TempTable × Heap)
    (h : t.storage.writeFails = false) (n2 : String) (hne : n2 ≠ t.name) :
    lookupKey n2 (((t.updateTableRun up).1.1.storage.memory).getD [])
      = lookupKey n2 ((t.storage.memory).getD []) := by
  obtain ⟨td2, heq⟩ := updateTableRun_ok_fst t up h
  rw [heq]
  simp [lookupKey_setKey_ne _ _ _ _ hne]

/-- C9 fails on the code: every mutating method clears the query cache only
AFTER `_update_table` returns, so when the storage write raises, the error
propagates with the cache still holding its pre-mutation entries.  Concrete
counterexample: a table with one cached query result and a failing storage
write; after `insert` fails, the cache still holds the old entry. -/
theorem c9_cache_not_cleared_on_failed_write :
    (tableFailingWrite.insert docA).2 = none ∧
    (tableFailingWrite.insert docA).1.queryCache.cache = [(0, cachedDocs)] ∧
    [(0, cachedDocs)] ≠ ([] : List (Nat × List Document)) := by
  refine ⟨rfl, rfl, by simp⟩

/-- C9 amended: if the storage write fails, the error propagates with the
table's query cache UNCHANGED, still holding its pre-mutation entries — the
cache is cleared only after a successful write.  This holds for every
mutating operation.  (What a failing backend leaves on its medium is
backend-specific — `JSONStorage.write` truncates the file before dumping —
so nothing is asserted here about the persisted state after a failure.) -/
theorem c9_amended_cache_unchanged_on_failed_write (t : Table) (d : Doc)
    (ds : List Doc) (fields : UpdFields) (cond : Option QueryLike)
    (docIds : Option (List Int)) (h : t.storage.writeFails = true) :
    ((t.insert d).1.queryCache = t.queryCache ∧ (t.insert d).2 = none) ∧
    ((t.insertMultiple ds).1.queryCache = t.queryCache ∧
     (t.insertMultiple ds).2 = none) ∧
    ((t.update fields cond docIds).1.queryCache = t.queryCache ∧
     (t.update fields cond docIds).2 = none) ∧
    ((t.remove cond docIds).1.queryCache = t.queryCache ∧
     (t.remove cond docIds).2 = none) ∧
    ((t.truncate).1.queryCache = t.queryCache ∧ (t.truncate).2 = false) := by
  have h1 : ((t.getNextId).1).storage.writeFails = true := by
    rw [getNextId_fst_storage]; exact h
  refine ⟨?_, ?_, ?_, ?_, ?_⟩
  · simp only [Table.insert]
    rw [updateTableRun_fail _ _ h1]
    simp [getNextId_fst_storage, getNextId_fst_queryCache]
  · simp only [Table.insertMultiple]
    rw [updateTableRun_fail _ _ h]
    simp
  · simp only [Table.update]
    rw [updateTableRun_fail _ _ h]
    simp
  · simp only [Table.remove]
    rw [updateTableRun_fail _ _ h]
    simp
  · simp only [Table.truncate]
    rw [updateTableRun_fail _ _ h]
    simp

/-- C2: after every successful insert, update, remove, or truncate — in
particular an update or remove matching zero documents, since the filter
arguments are arbitrary — the table's query cache is empty; and a search on
an empty cache returns the fresh scan of storage (the spec-side
`searchFresh`), not a cached sequence. -/
theorem c2_cache_cleared_after_mutation (t : Table) (d : Doc)
    (fields : UpdFields) (cond : Option QueryLike) (docIds : Option (List Int))
    (h : t.storage.writeFails = false) :
    (t.insert d).1.queryCache.cache = [] ∧
    (t.update fields cond docIds).1.queryCache.cache = [] ∧
    (t.remove cond docIds).1.queryCache.cache = [] ∧
    (t.truncate).1.queryCache.cache = [] ∧
    (∀ (t2 : Table) (q : QueryLike), t2.queryCache.cache = [] →
      (t2.search q).2 = t2.searchFresh q) := by
  have h1 : ((t.getNextId).1).storage.writeFails = false := by
    rw [getNextId_fst_storage]; exact h
  refine ⟨?_, ?_, ?_, ?_, ?_⟩
  · simp only [Table.insert]
    rw [updateTableRun_ok_snd _ _ h1]
    simp [clearCache_cache]
  · simp only [Table.update]
    rw [updateTableRun_ok_snd _ _ h]
    simp [clearCache_cache]
  · simp only [Table.remove]
    rw [updateTableRun_ok_snd _ _ h]
    simp [clearCache_cache]
  · simp only [Table.truncate]
    rw [updateTableRun_ok_snd _ _ h]
    simp [clearCache_cache]
  · intro t2 q hc
    simp only [Table.search, Table.searchFresh, LRUCache.contains, hc,
      containsKey_nil, Bool.false_eq_true, if_false]
    split <;> rfl

theorem insert_snd_ok (t : Table) (d : Doc) (h : t.storage.writeFails = false) :
    (t.insert d).2 = some (t.getNextId).2 := by
  have h1 : ((t.getNextId).1).storage.writeFails = false := by
    rw [getNextId_fst_storage]; exact h
  simp only [Table.insert]
  rw [updateTableRun_ok_snd _ _ h1]
  simp

theorem getNextId_snd_eqn (t : Table) :
    (t.getNextId).2
      = if (t.readTable).isEmpty then 1
        else ((t.readTable).map (fun p => p.1.toInt)).max?.getD 0 + 1 := by
  simp only [Table.getNextId]
  split <;> simp_all

/-- C4: for every table (with a working storage), the ID returned by `insert`
is the greatest integer ID currently stored plus one, or `1` on an empty
table; and it is recomputed from the stored document set — two tables with
the same persisted state and name are assigned the same ID, regardless of
their in-memory `_next_id` attribute or query cache. -/
theorem c4_assigned_id (t : Table) (d : Doc) (h : t.storage.writeFails = false) :
    (∃ n : Int, (t.insert d).2 = some n ∧
      ((t.readTable = [] ∧ n = 1) ∨
       (∃ k : Int, k ∈ (t.readTable).map (fun p => p.1.toInt) ∧
         (∀ j ∈ (t.readTable).map (fun p => p.1.toInt), j ≤ k) ∧ n = k + 1))) ∧
    (∀ t2 : Table, t2.storage.memory = t.storage.memory →
      t2.storage.writeFails = false → t2.name = t.name →
      (t2.insert d).2 = (t.insert d).2) := by
  constructor
  · refine ⟨(t.getNextId).2, insert_snd_ok t d h, ?_⟩
    by_cases he : (t.readTable).isEmpty
    · exact Or.inl ⟨List.isEmpty_iff.mp he, by rw [getNextId_snd_eqn]; simp [he]⟩
    · refine Or.inr ?_
      have hne : (t.readTable).map (fun p => p.1.toInt) ≠ [] := by
        simp only [ne_eq, List.map_eq_nil_iff]
        intro hnil
        exact he (by simp [hnil])
      cases hmx : ((t.readTable).map (fun p => p.1.toInt)).max? with
      | none => exact absurd (List.max?_eq_none_iff.mp hmx) hne
      | some m =>
          refine ⟨m, List.max?_mem (fun a b => max_choice a b) hmx,
            (List.max?_le_iff (fun a b c => max_le_iff) hmx).mp (le_refl m), ?_⟩
          rw [getNextId_snd_eqn, if_neg he, hmx]
          rfl
  · intro t2 hm hw hn
    rw [insert_snd_ok t2 d hw, insert_snd_ok t d h,
      getNextId_snd_eqn, getNextId_snd_eqn, readTable_congr t2 t hm hn]

/-- C10: every mutating operation re-embeds only this table's partition of
the whole persisted state; the partition of every other table name is
written back exactly as read. -/
theorem c10_other_tables_preserved (t : Table) (n2 : String) (hne : n2 ≠ t.name)
    (d : Doc) (ds : List Doc) (fields : UpdFields) (cond : Option QueryLike)
    (docIds : Option (List Int)) (h : t.storage.writeFails = false) :
    lookupKey n2 (((t.insert d).1.storage.memory).getD [])
      = lookupKey n2 ((t.storage.memory).getD []) ∧
    lookupKey n2 (((t.insertMultiple ds).1.storage.memory).getD [])
      = lookupKey n2 ((t.storage.memory).getD []) ∧
    lookupKey n2 (((t.update fields cond docIds).1.storage.memory).getD [])
      = lookupKey n2 ((t.storage.memory).getD []) ∧
    lookupKey n2 (((t.remove cond docIds).1.storage.memory).getD [])
      = lookupKey n2 ((t.storage.memory).getD []) ∧
    lookupKey n2 (((t.truncate).1.storage.memory).getD [])
      = lookupKey n2 ((t.storage.memory).getD []) := by
  have h1 : ((t.getNextId).1).storage.writeFails = false := by
    rw [getNextId_fst_storage]; exact h
  have hne1 : n2 ≠ ((t.getNextId).1).name := by
    rw [getNextId_fst_name]; exact hne
  refine ⟨?_, ?_, ?_, ?_, ?_⟩
  · simp only [Table.insert]
    rw [updateTableRun_ok_snd _ _ h1]
    simp only [if_true, clearCache_storage]
    exact (updateTableRun_frame _ _ h1 n2 hne1).trans
      (by rw [getNextId_fst_storage])
  · simp only [Table.insertMultiple]
    rw [updateTableRun_ok_snd _ _ h]
    simp only [if_true, clearCache_storage]
    exact updateTableRun_frame _ _ h n2 hne
  · simp only [Table.update]
    rw [updateTableRun_ok_snd _ _ h]
    simp only [if_true, clearCache_storage]
    exact updateTableRun_frame _ _ h n2 hne
  · simp only [Table.remove]
    rw [updateTableRun_ok_snd _ _ h]
    simp only [if_true, clearCache_storage]
    exact updateTableRun_frame _ _ h n2 hne
  · simp only [Table.truncate]
    rw [updateTableRun_ok_snd _ _ h]
    simp only [if_true, clearCache_storage]
    exact updateTableRun_frame _ _ h n2 hne

/-- C8: for an LRU cache of finite capacity N, (a) inserting N+1 distinct
keys with no intervening get evicts exactly the first-inserted key, leaving
the others and the new key in order; (b) a key accessed via get before the
(N+1)-th insert is protected, and the evicted key is the least-recently-
touched of the others (the earliest-inserted remaining one); (c) with no
configured capacity, no eviction ever occurs: every key ever inserted (or
already present) is still in the cache. -/
theorem c8_lru_eviction_policy :
    (∀ (k0 v0 : Nat) (ps : List (Nat × Nat)) (q : Nat × Nat),
      (k0 :: (ps.map Prod.fst ++ [q.1])).Nodup →
      ((LRUCache.empty (some (ps.length + 1))).setAll
        (((k0, v0) :: ps) ++ [q])).cache = ps ++ [q]) ∧
    (∀ (full : List (Nat × Nat)) (i vi qk qv : Nat),
      (full.map Prod.fst).Nodup → (i, vi) ∈ full →
      containsKey qk full = false → 2 ≤ full.length →
      containsKey i (((((LRUCache.empty (some full.length)).setAll
          full).getItem i).1.setItem qk qv).cache) = true ∧
      ((((LRUCache.empty (some full.length)).setAll full).getItem i).1.setItem
          qk qv).cache = (eraseKey i full).tail ++ [(i, vi), (qk, qv)]) ∧
    (∀ (c : LRUCache Nat Nat), c.capacity = none →
      ∀ (ps : List (Nat × Nat)) (k : Nat),
      (containsKey k c.cache = true ∨ k ∈ ps.map Prod.fst) →
      containsKey k (c.setAll ps).cache = true) :=
  ⟨fun k0 v0 ps q hnd => lru_evicts_first_inserted k0 v0 ps q hnd,
   fun full i vi qk qv hnd hmem hq hlen =>
     lru_get_protects full i vi qk qv hnd hmem hq hlen,
   fun c hcap ps k hk => lru_unbounded_never_evicts ps c hcap k hk⟩

/-- Witness for C8 at capacity 2: inserting keys 10, 20, 30 evicts 10;
on keys 1, 2 with 2 refreshed by get, inserting 5 evicts 1 and keeps 2;
with no capacity, an inserted key stays. -/
theorem c8_lru_eviction_policy_witness :
    ((LRUCache.empty (some 2)).setAll
      ([((10 : Nat), (0 : Nat)), (20, 0)] ++ [(30, 0)])).cache
      = [(20, 0), (30, 0)] ∧
    (containsKey 2 (((((LRUCache.empty (some 2)).setAll
        [((1 : Nat), (11 : Nat)), (2, 22)]).getItem 2).1.setItem 5 0).cache)
        = true ∧
     ((((LRUCache.empty (some 2)).setAll
        [((1 : Nat), (11 : Nat)), (2, 22)]).getItem 2).1.setItem 5 0).cache
        = [(2, 22), (5, 0)]) ∧
    containsKey 1 (((LRUCache.empty (K := Nat) (V := Nat) none).setAll
      [(1, 1)]).cache) = true :=
  ⟨c8_lru_eviction_policy.1 10 0 [(20, 0)] (30, 0) (by decide),
   c8_lru_eviction_policy.2.1 [(1, 11), (2, 22)] 2 22 5 0 (by decide)
     (by decide) (by decide) (by decide),
   c8_lru_eviction_policy.2.2 (LRUCache.empty none) rfl [(1, 1)] 1
     (Or.inr (by decide))⟩

/-- Witness for C2 at concrete tables: all four mutations on the empty-
storage table leave an empty cache, and a search over an empty cache on a
one-document table equals the fresh scan. -/
theorem c2_cache_cleared_after_mutation_witness :
    (emptyTable.insert docA).1.queryCache.cache = [] ∧
    (emptyTable.update (.mapping []) none none).1.queryCache.cache = [] ∧
    (emptyTable.remove none none).1.queryCache.cache = [] ∧
    (emptyTable.truncate).1.queryCache.cache = [] ∧
    (tableOne.search trueQuery).2 = tableOne.searchFresh trueQuery :=
  ⟨(c2_cache_cleared_after_mutation emptyTable docA (.mapping []) none none rfl).1,
   (c2_cache_cleared_after_mutation emptyTable docA (.mapping []) none none rfl).2.1,
   (c2_cache_cleared_after_mutation emptyTable docA (.mapping []) none none rfl).2.2.1,
   (c2_cache_cleared_after_mutation emptyTable docA (.mapping []) none none rfl).2.2.2.1,
   (c2_cache_cleared_after_mutation emptyTable docA (.mapping []) none none
      rfl).2.2.2.2 tableOne trueQuery rfl⟩

/-- Witness for C4 at the one-document table `tableOne`. -/
theorem c4_assigned_id_witness :
    (∃ n : Int, (tableOne.insert docA).2 = some n ∧
      ((tableOne.readTable = [] ∧ n = 1) ∨
       (∃ k : Int, k ∈ (tableOne.readTable).map (fun p => p.1.toInt) ∧
         (∀ j ∈ (tableOne.readTable).map (fun p => p.1.toInt), j ≤ k) ∧
         n = k + 1))) ∧
    (∀ t2 : Table, t2.storage.memory = tableOne.storage.memory →
      t2.storage.writeFails = false → t2.name = tableOne.name →
      (t2.insert docA).2 = (tableOne.insert docA).2) :=
  c4_assigned_id tableOne docA rfl

/-- Witness for the amended C9 at the failing-write table. -/
theorem c9_amended_witness :
    ((tableFailingWrite.insert docA).1.queryCache = tableFailingWrite.queryCache ∧
     (tableFailingWrite.insert docA).2 = none) ∧
    ((tableFailingWrite.insertMultiple [docA]).1.queryCache
        = tableFailingWrite.queryCache ∧
     (tableFailingWrite.insertMultiple [docA]).2 = none) ∧
    ((tableFailingWrite.update (.mapping []) none none).1.queryCache
        = tableFailingWrite.queryCache ∧
     (tableFailingWrite.update (.mapping []) none none).2 = none) ∧
    ((tableFailingWrite.remove none none).1.queryCache
        = tableFailingWrite.queryCache ∧
     (tableFailingWrite.remove none none).2 = none) ∧
    ((tableFailingWrite.truncate).1.queryCache = tableFailingWrite.queryCache ∧
     (tableFailingWrite.truncate).2 = false) :=
  c9_amended_cache_unchanged_on_failed_write tableFailingWrite docA [docA]
    (.mapping []) none none rfl

/-- Witness for C10 at the one-document table and the name `other`. -/
theorem c10_other_tables_preserved_witness :
    lookupKey "other" (((tableOne.insert docA).1.storage.memory).getD [])
      = lookupKey "other" ((tableOne.storage.memory).getD []) ∧
    lookupKey "other" (((tableOne.insertMultiple [docA]).1.storage.memory).getD [])
      = lookupKey "other" ((tableOne.storage.memory).getD []) ∧
    lookupKey "other"
        (((tableOne.update (.mapping []) none none).1.storage.memory).getD [])
      = lookupKey "other" ((tableOne.storage.memory).getD []) ∧
    lookupKey "other" (((tableOne.remove none none).1.storage.memory).getD [])
      = lookupKey "other" ((tableOne.storage.memory).getD []) ∧
    lookupKey "other" (((tableOne.truncate).1.storage.memory).getD [])
      = lookupKey "other" ((tableOne.storage.memory).getD []) :=
  c10_other_tables_preserved tableOne "other" (by decide) docA [docA]
    (.mapping []) none none rfl

end TinyDB
